import Mathlib

/-
Verification of the autoprof profile-bundle collector.

The Go sources are shallowly embedded as pure Lean functions:

* `collector.go` — `Collector.add`, `Collector.Run`, `Collector.addCPUProfile`,
  `Collector.addExecutionTrace`, `Collector.addTimeBasedProfile` and
  `limitTriggerWriter.Write` are modelled over an explicit `Env` that fixes the
  behaviour of the external collaborators (the zip writer, the runtime pprof /
  trace facilities, `url.PathEscape`, the registered pprof profiles and the
  user-supplied custom data sources).  The observable state of a run is a
  `CState`: the ordered list of archive-entry headers created, the ordered
  list of data-source `WriteTo` invocations, the sticky `addErr` field and the
  number of times the archive was finalized (`finish`, i.e. `zip.Writer.Close`).
* `writer.go` — the static data-source constructors (`metaSource`,
  `expvarStyleSource`, `pprofSource`) always carry a non-nil `WriteTo`; their
  outcome is a single `Option Err` (note that `expvarStyleSource`'s `WriteTo`
  always returns nil in the source, so its write result is hard-coded `none`).
* `periodic/llbuf.go` — `linkedListBuffer.Write` / `Read` are modelled over
  byte lists, and the scheduler's `runner.options` / `runner.delay` over the
  documented contract of `math/rand` (`Intn n` / `Int63n n` return a value in
  `[0, n)`), which appears as an explicit hypothesis.

Concurrency inside `addTimeBasedProfile` (the pipe, the pump goroutine and the
`WaitGroup`) is collapsed into its observable outcome: the pump's final copy
error and the pipe-close error are environment parameters, and the order of
`writeFileHeader` calls is recorded exactly as the source performs them.
-/

namespace Autoprof

/-- Errors (Go `error` values) are modelled by strings; `none` is Go `nil`. -/
abbrev Err := String

/-- `firstErr a b` is the Go pattern `if a != nil { return a }; return b`. -/
def firstErr (a b : Option Err) : Option Err :=
  match a with
  | some e => some e
  | none => b

/-- Model of `DataSource` (collector.go:58).  `writeTo = none` models a nil
`WriteTo` field; `writeTo = some r` models a `WriteTo` function whose
invocation returns `r` (`none` for a nil error). -/
structure DataSource where
  writeTo : Option (Option Err)
deriving DecidableEq

/-- Model of `ArchiveOptions` (collector.go:32).  Durations are `time.Duration`
values, i.e. signed 64-bit nanosecond counts, modelled as `Int`.  The custom
data sources live in `Env` (as an association list standing for the Go map). -/
structure ArchiveOptions where
  cpuProfileDuration : Int
  cpuProfileByteTarget : Int
  executionTraceDuration : Int
  executionTraceByteTarget : Int

/-- The environment of one `Collector.Run`: the behaviour of every external
collaborator the collector calls, fixed up front.  A Go execution of `Run`
determines one `Env`; quantifying over `Env` quantifies over executions. -/
structure Env where
  /-- `url.PathEscape` (net/url), used verbatim on profile and custom names. -/
  pathEscape : String → String := id
  /-- Result of `writeFileHeader name` (`zip.Writer.CreateHeader`): `none` means
  the header was created and an entry writer returned, `some e` means it failed. -/
  headerErr : String → Option Err := fun _ => none
  /-- Result of the `meta` source's `WriteTo` (writer.go: `metaSource`; a
  `json.Marshal` failure surfaces here too, via `errSource`). -/
  metaRes : Option Err := none
  /-- Result of `pprofSource(pprof.Lookup("heap"))`'s `WriteTo`. -/
  heapRes : Option Err := none
  /-- `pprof.Profiles()`: the enumerated point-in-time profiles, in
  registration order, each with the result of its `WriteTo`. -/
  profiles : List (String × Option Err) := []
  /-- `ArchiveOptions.CustomDataSources`: map keys with their values; a `none`
  value is a nil `*DataSource`. -/
  custom : List (String × Option DataSource) := []
  opt : ArchiveOptions := ⟨0, 0, 0, 0⟩
  /-- Whether `pprof.StartCPUProfile` succeeds when `addCPUProfile` starts it. -/
  cpuStartOk : Bool := true
  /-- Pump (`io.Copy`) result for the CPU-profile capture. -/
  cpuCopyErr : Option Err := none
  /-- `pw.Close()` result for the CPU-profile capture. -/
  cpuCloseErr : Option Err := none
  /-- Whether `trace.Start` succeeds inside `addExecutionTrace`. -/
  traceStartOk : Bool := true
  /-- Whether the wrapping `pprof.StartCPUProfile` into the in-memory buffer
  succeeds (collector.go:168); decides `cpuProfile != nil`. -/
  wrapCpuStartOk : Bool := true
  /-- Pump (`io.Copy`) result for the execution-trace capture. -/
  traceCopyErr : Option Err := none
  /-- `pw.Close()` result for the execution-trace capture. -/
  traceCloseErr : Option Err := none
  /-- Result of `io.Copy(w, cpuProfile)` for the trace-spanning CPU profile
  entry (collector.go:196). -/
  ptWriteErr : Option Err := none
  /-- Result of `c.finish()` (`zip.Writer.Close`). -/
  finishErr : Option Err := none

/-- Observable collector state: `headerCalls` records each call of
`c.writeFileHeader` (in order), `writeCalls` each invocation of a static
source's `WriteTo`, `addErr` is the sticky error field (collector.go:74), and
`finishCount` the number of `c.finish()` calls. -/
structure CState where
  headerCalls : List String := []
  writeCalls : List String := []
  addErr : Option Err := none
  finishCount : Nat := 0
deriving DecidableEq

def CState.init : CState := {}

/-- `Collector.add` (collector.go:80-93): nil checks first, then the sticky
error check, then `writeFileHeader`, then `source.WriteTo`. -/
def Collector.add (env : Env) (st : CState) (name : String)
    (source : Option DataSource) : CState :=
  match source with
  | none => st
  | some src =>
    match src.writeTo with
    | none => st
    | some writeRes =>
      if st.addErr.isSome then st
      else
        match env.headerErr name with
        | some e => { st with headerCalls := st.headerCalls ++ [name], addErr := some e }
        | none =>
          { st with
            headerCalls := st.headerCalls ++ [name]
            writeCalls := st.writeCalls ++ [name]
            addErr := writeRes }

/-- `sort.Strings`: ascending lexicographic order on strings (UTF-8 byte order
in Go coincides with code-point order, which is `≤` on Lean strings). -/
def sortStrings (l : List String) : List String :=
  List.insertionSort (· ≤ ·) l

/-- The static additions performed by `Collector.Run` (collector.go:100-119),
in order: `meta`, `expvar`, the heap profile, the other enumerated pprof
profiles (path-escaped, `heap` filtered out), then the custom sources in
sorted key order (Go collects the map keys, sorts them, and indexes the map;
keys of a Go map are unique, so taking the keys in list order and sorting is
equivalent).  `expvarStyleSource`'s `WriteTo` always returns nil in writer.go,
hence the hard-coded `some none`. -/
def staticSources (env : Env) : List (String × Option DataSource) :=
  [("meta", some ⟨some env.metaRes⟩),
   ("expvar", some ⟨some none⟩),
   ("pprof/heap", some ⟨some env.heapRes⟩)]
  ++ env.profiles.filterMap (fun p =>
      if p.1 = "heap" then none
      else some ("pprof/" ++ env.pathEscape p.1, some ⟨some p.2⟩))
  ++ (sortStrings (env.custom.map Prod.fst)).map (fun n =>
      ("custom/" ++ env.pathEscape n, (List.lookup n env.custom).join))

/-- Fold a sequence of `Collector.add` calls over the state. -/
def addList (env : Env) (st : CState) (l : List (String × Option DataSource)) : CState :=
  l.foldl (fun st p => Collector.add env st p.1 p.2) st

/-- The static phase of `Collector.Run` (collector.go:100-119). -/
def runStatic (env : Env) : CState :=
  addList env CState.init (staticSources env)

/-- `Collector.addTimeBasedProfile` (collector.go:206-257), collapsed to its
observable behaviour.  `startErr` is the result of `start(pw)`; on failure the
capture is skipped (`return nil`, no header).  Otherwise the archive entry is
opened (`writeFileHeader`), failing with its error; the optional
`limitTriggerWriter` wrapping does not change which bytes reach the entry or
the reported error (see `limitTriggerWrite`), and the final result is the
pump's copy error if non-nil, else the pipe-close error (collector.go:251-254). -/
def Collector.addTimeBasedProfile (env : Env) (st : CState) (name : String)
    (startErr copyErr closeErr : Option Err) : CState × Option Err :=
  match startErr with
  | some _ => (st, none)
  | none =>
    let st' := { st with headerCalls := st.headerCalls ++ [name] }
    match env.headerErr name with
    | some e => (st', some e)
    | none =>
      match copyErr with
      | some e => (st', some e)
      | none => (st', closeErr)

/-- `Collector.addCPUProfile` (collector.go:142-146). -/
def Collector.addCPUProfile (env : Env) (st : CState) : CState × Option Err :=
  Collector.addTimeBasedProfile env st "pprof/profile"
    (if env.cpuStartOk then none else some "cpu profiling already in use")
    env.cpuCopyErr env.cpuCloseErr

/-- `Collector.addExecutionTrace` (collector.go:148-204).  When a CPU-profile
duration is configured, the start function is wrapped: it first starts a CPU
profile into an in-memory buffer (setting `cpuProfile` on success) and then
starts the trace; the wrapped start's error is `trace.Start`'s error.  After
the engine-level capture returns, if `cpuProfile != nil` the buffered profile
is written as one more entry under `profileName`; a trace error takes
precedence over a profile-write error (collector.go:200-203). -/
def Collector.addExecutionTrace (env : Env) (st : CState)
    (name profileName : String) : CState × Option Err :=
  let cpuProfileStarted := decide (0 < env.opt.cpuProfileDuration) && env.wrapCpuStartOk
  let startErr := if env.traceStartOk then none else some "tracing is already enabled"
  let res := Collector.addTimeBasedProfile env st name startErr
    env.traceCopyErr env.traceCloseErr
  let pres : CState × Option Err :=
    if cpuProfileStarted then
      let st' := { res.1 with headerCalls := res.1.headerCalls ++ [profileName] }
      match env.headerErr profileName with
      | some e => (st', some e)
      | none => (st', env.ptWriteErr)
    else (res.1, none)
  match res.2 with
  | some e => (pres.1, some e)
  | none => pres

/-- `Collector.Run` (collector.go:96-140): the static phase, the early return
on a static error, the CPU capture (if requested), the execution-trace capture
(if requested), and finally `c.finish()`. -/
def Collector.Run (env : Env) : CState × Option Err :=
  let st := runStatic env
  match st.addErr with
  | some e => (st, some e)
  | none =>
    let cpuRes := if 0 < env.opt.cpuProfileDuration
      then Collector.addCPUProfile env st else (st, none)
    match cpuRes.2 with
    | some e => (cpuRes.1, some e)
    | none =>
      let trRes := if 0 < env.opt.executionTraceDuration
        then Collector.addExecutionTrace env cpuRes.1 "pprof/trace" "pprof/profile-during-trace"
        else (cpuRes.1, none)
      match trRes.2 with
      | some e => (trRes.1, some e)
      | none => ({ trRes.1 with finishCount := trRes.1.finishCount + 1 }, env.finishErr)

/-- State of a `limitTriggerWriter` (collector.go:259-263) together with the
observables of the underlying entry writer: `out` is every byte forwarded to
`lw.wr` in order (the zip entry writer accepts all bytes it is given), `fires`
counts invocations of the cancellation callback `lw.fn`, and `fnArmed` models
`lw.fn != nil`. -/
structure LimitTriggerState where
  out : List Nat := []
  remaining : Int
  fnArmed : Bool := true
  fires : Nat := 0
deriving DecidableEq

/-- `limitTriggerWriter.Write` (collector.go:265-273): forward `p` to the
underlying writer, subtract the written count from `remaining`, and if the
budget is exhausted and the callback is still set, invoke it once and clear it. -/
def limitTriggerWrite (s : LimitTriggerState) (p : List Nat) : LimitTriggerState :=
  let n : Int := p.length
  let s' : LimitTriggerState :=
    { s with out := s.out ++ p, remaining := s.remaining - n }
  if s'.remaining ≤ 0 && s'.fnArmed then
    { s' with fires := s'.fires + 1, fnArmed := false }
  else s'

/-- Initial `limitTriggerWriter` as built at collector.go:231-235. -/
def limitTriggerInit (targetSize : Int) : LimitTriggerState :=
  { remaining := targetSize }

end Autoprof

namespace Periodic

/-- One link of `linkedListBuffer` (periodic/llbuf.go:15-21): `body` is the
slice contents, `cap` the capacity of its backing array. -/
structure BufferLink where
  body : List Nat
  cap : Nat
deriving DecidableEq

/-- `linkedListBuffer` (periodic/llbuf.go:5-13): the chain of links from head
to tail.  `size` is the `Size` field. -/
structure LinkedListBuffer where
  size : Int
  links : List BufferLink := []
deriving DecidableEq

/-- Capacity used by `newLink` (periodic/llbuf.go:23-29): the configured
`Size`, or the 16 KiB default when it is zero or negative.  Always positive. -/
def newLinkCap (size : Int) : Nat :=
  if size ≤ 0 then 16384 else size.toNat

/-- Replace the last element of a list (the Go code mutates `b.tail`, which is
the final link of the chain). -/
def setLast : List BufferLink → BufferLink → List BufferLink
  | [], _ => []
  | [_], t => [t]
  | x :: y :: ys, t => x :: setLast (y :: ys) t

/-- The copy loop of `linkedListBuffer.Write` (periodic/llbuf.go:37-49).  Each
Go iteration copies `n = min (cap(tail.body) - len(tail.body)) (len p)` bytes
into the tail; an iteration with `n = 0` only appends a fresh link (`newLink`)
of capacity `c` and the next iteration copies `min c (len p)` bytes into it —
those two iterations are fused here into one step so that every step consumes
at least one byte of `p`.  The two `links = []` / `m = 0` fallbacks are
unreachable from `LinkedListBuffer.write` (it seeds a link before the loop,
and `newLinkCap` is positive). -/
def writeLoop (c : Nat) (links : List BufferLink) (p : List Nat) : List BufferLink :=
  match p with
  | [] => links
  | p₁ :: ps =>
    let p := p₁ :: ps
    match links.getLast? with
    | none => links
    | some tail =>
      let free := tail.cap - tail.body.length
      let n := min free p.length
      if n = 0 then
        let m := min c p.length
        if hm : m = 0 then links ++ [⟨[], c⟩]
        else writeLoop c (links ++ [⟨p.take m, c⟩]) (p.drop m)
      else writeLoop c (setLast links ⟨tail.body ++ p.take n, tail.cap⟩) (p.drop n)
termination_by p.length
decreasing_by
  all_goals simp only [List.length_drop, List.length_cons]
  all_goals omega

/-- `linkedListBuffer.Write` (periodic/llbuf.go:32-51): when the chain is
empty and the write is non-empty, seed a first link, then run the copy loop.
The Go method returns `(len p, nil)` unconditionally. -/
def LinkedListBuffer.write (b : LinkedListBuffer) (p : List Nat) : LinkedListBuffer :=
  let links := if b.links = [] ∧ p ≠ []
    then [⟨[], newLinkCap b.size⟩] else b.links
  { b with links := writeLoop (newLinkCap b.size) links p }

/-- `linkedListBuffer.Read` (periodic/llbuf.go:53-66): `none` models the
`(0, io.EOF)` return when the chain is empty; otherwise `min k |head.body|`
bytes are copied out, the head body is advanced, and a fully drained head link
is unlinked. -/
def LinkedListBuffer.read (b : LinkedListBuffer) (k : Nat) :
    Option (List Nat × LinkedListBuffer) :=
  match b.links with
  | [] => none
  | link :: rest =>
    let n := min k link.body.length
    let body' := link.body.drop n
    some (link.body.take n,
      { b with links := if body' = [] then rest else ⟨body', link.cap⟩ :: rest })

/-- Termination measure for draining a buffer: total buffered bytes plus the
number of links (each `Read` with a positive-size destination either consumes
a byte or unlinks an empty head link). -/
def LinkedListBuffer.measureB (b : LinkedListBuffer) : Nat :=
  (b.links.map (fun l => l.body.length)).sum + b.links.length

/-- Reading to exhaustion: repeatedly `Read` with a destination buffer of a
fixed positive size `k + 1` until EOF, concatenating the chunks (this is the
"reads until EOF" consumer phase, e.g. `io.ReadAll` in `runner.store`). -/
def LinkedListBuffer.readAll (k : Nat) (b : LinkedListBuffer) : List Nat :=
  match h : b.read (k + 1) with
  | none => []
  | some (chunk, b') => chunk ++ b'.readAll k
termination_by b.measureB
decreasing_by
  unfold LinkedListBuffer.read at h
  rcases hl : b.links with - | ⟨link, rest⟩
  · rw [hl] at h
    exact absurd h (by simp)
  · rw [hl] at h
    simp only [Option.some.injEq, Prod.mk.injEq] at h
    obtain ⟨-, hb'⟩ := h
    by_cases he : link.body.drop (min (k + 1) link.body.length) = []
    · rw [if_pos he] at hb'
      subst hb'
      simp only [LinkedListBuffer.measureB, hl, List.map_cons, List.sum_cons,
        List.length_cons]
      omega
    · rw [if_neg he] at hb'
      subst hb'
      simp only [LinkedListBuffer.measureB, hl, List.map_cons, List.sum_cons,
        List.length_cons, List.length_drop]
      have h₁ := List.length_pos.mpr he
      rw [List.length_drop] at h₁
      omega

/-- All bytes currently buffered, head link first. -/
def LinkedListBuffer.content (b : LinkedListBuffer) : List Nat :=
  (b.links.map BufferLink.body).flatten

/-- `defaultProfileInterval` (periodic scheduler source): `2 * time.Minute`,
i.e. 120 seconds in nanoseconds. -/
def defaultProfileInterval : Int := 2 * 60 * 1000000000

/-- `runner.options` (periodic scheduler source).  `draw` models the value of
`r.rng.Intn(execTraceMaxPeriod)` drawn when the execution-trace branch is
taken (`math/rand` contract: `0 ≤ draw < 100`; the result is independent of
`draw` except through the returned next-trace counter).  Returns the
`ArchiveOptions` for iteration `i` and the updated `nextExecTrace` counter.
Mirrors the source statement by statement: CPU duration 5s with a 1e6 byte
target, the throttled execution-trace branch (1s duration, counter advanced to
`i + 1 + draw`), the 1e7 trace byte target, and the forced zero durations on
iteration 0. -/
def runner.options (i nextExecTrace draw : Nat) : Autoprof.ArchiveOptions × Nat :=
  let opts : Autoprof.ArchiveOptions :=
    { cpuProfileDuration := 5 * 1000000000
      cpuProfileByteTarget := 1000000
      executionTraceDuration := 0
      executionTraceByteTarget := 0 }
  let next := if nextExecTrace = i then i + 1 + draw else nextExecTrace
  let opts := if nextExecTrace = i
    then { opts with executionTraceDuration := 1000000000 } else opts
  let opts := { opts with executionTraceByteTarget := 10000000 }
  let opts := if i = 0
    then { opts with cpuProfileDuration := 0, executionTraceDuration := 0 } else opts
  (opts, next)

/-- The trim bound used by `runner.delay`: `maxTrim := max`, halved to a fifth
(`max / 5`) for every iteration after the first.  The actual trim is
`r.rng.Int63n(maxTrim)`, so `0 ≤ trim < delayMaxTrim i`. -/
def runner.delayMaxTrim (i : Nat) : Int :=
  if 0 < i then defaultProfileInterval / 5 else defaultProfileInterval

/-- The sleep duration computed by `runner.delay`: `max - trim` nanoseconds
(the timer `time.NewTimer(time.Duration(max - trim))`). -/
def runner.delaySleep (trim : Int) : Int :=
  defaultProfileInterval - trim

end Periodic

namespace Autoprof

/-- Whether a `*DataSource` value passes the nil checks at collector.go:81. -/
def hasWriteTo : Option DataSource → Bool
  | some src => src.writeTo.isSome
  | none => false

/-- The archive-entry names a list of `add` calls produces when none of them
fails: the names of the sources that pass the nil checks, in order. -/
def entryNames (l : List (String × Option DataSource)) : List String :=
  (l.filter (fun p => hasWriteTo p.2)).map Prod.fst

/-- Whether the custom data source registered under (unescaped) name `n`
passes the nil checks of `Collector.add`. -/
def hasCustomSource (env : Env) (n : String) : Bool :=
  hasWriteTo ((List.lookup n env.custom).join)

/-- An environment where every collaborator succeeds and nothing extra is
registered. -/
def envDefault : Env := {}

/-- Success run with one extra pprof profile (plus the `heap` duplicate, which
`Run` filters out) and one custom source. -/
def envBundleW : Env :=
  { profiles := [("heap", none), ("goroutine", none)]
    custom := [("x", some ⟨some none⟩)] }

/-- Both captures requested; the wrapping CPU profile starts, but
`trace.Start` fails (e.g. an interactive trace is already running). -/
def envTraceBusy : Env :=
  { opt := ⟨1000000000, 0, 1000000000, 0⟩
    traceStartOk := false }

/-- The zip writer rejects the very first entry header (`meta`); later static
sources and both captures are configured but must not be attempted. -/
def envMetaFail : Env :=
  { headerErr := fun n => if n = "meta" then some "boom" else none
    profiles := [("goroutine", none)]
    custom := [("x", some ⟨some none⟩)]
    opt := ⟨1000000000, 0, 1000000000, 0⟩ }

/-- Entry-header creation fails for the name `x` only. -/
def envHdrX : Env :=
  { headerErr := fun n => if n = "x" then some "hdr" else none }

/-- Both captures requested, every collaborator succeeding. -/
def envBoth : Env := { opt := ⟨1000000000, 0, 1000000000, 0⟩ }

/-- One custom source that is a nil `*DataSource`. -/
def envNilA : Env := { custom := [("x", none)] }

/-- One custom source that is non-nil but has a nil `WriteTo`. -/
def envNilB : Env := { custom := [("y", some ⟨none⟩)] }

theorem add_of_isSome (env : Env) (st : CState) (name : String)
    (source : Option DataSource) (h : st.addErr.isSome) :
    Collector.add env st name source = st := by
  rcases source with - | ⟨w⟩
  · rfl
  · rcases w with - | res
    · rfl
    · simp [Collector.add, h]

theorem addList_of_isSome (env : Env) (l : List (String × Option DataSource)) :
    ∀ st : CState, st.addErr.isSome → addList env st l = st := by
  induction l with
  | nil => intro st _; rfl
  | cons p l ih =>
    intro st h
    show addList env (Collector.add env st p.1 p.2) l = st
    rw [add_of_isSome env st p.1 p.2 h]
    exact ih st h

theorem addErr_none_of_add (env : Env) (st : CState) (name : String)
    (source : Option DataSource)
    (h : (Collector.add env st name source).addErr = none) : st.addErr = none := by
  by_contra hne
  have hs : st.addErr.isSome := Option.ne_none_iff_isSome.mp hne
  rw [add_of_isSome env st name source hs] at h
  rw [h] at hs
  simp at hs

theorem addErr_none_of_addList (env : Env) (l : List (String × Option DataSource))
    (st : CState) (h : (addList env st l).addErr = none) : st.addErr = none := by
  by_contra hne
  have hs : st.addErr.isSome := Option.ne_none_iff_isSome.mp hne
  rw [addList_of_isSome env l st hs] at h
  rw [h] at hs
  simp at hs

theorem addList_success (env : Env) (l : List (String × Option DataSource)) :
    ∀ st : CState, (addList env st l).addErr = none →
    addList env st l =
      { headerCalls := st.headerCalls ++ entryNames l
        writeCalls := st.writeCalls ++ entryNames l
        addErr := none
        finishCount := st.finishCount } := by
  induction l with
  | nil =>
    intro st h
    have h' : st.addErr = none := h
    cases st
    simp_all [entryNames]
    rfl
  | cons p l ih =>
    intro st h
    have hcons : addList env st (p :: l) = addList env (Collector.add env st p.1 p.2) l := rfl
    rw [hcons] at h ⊢
    have h1 : (Collector.add env st p.1 p.2).addErr = none :=
      addErr_none_of_addList env l _ h
    have h0 : st.addErr = none := addErr_none_of_add env st p.1 p.2 h1
    obtain ⟨n, s⟩ := p
    rcases s with - | ⟨w⟩
    · rw [show Collector.add env st n none = st from rfl] at h ⊢
      rw [ih st h]
      simp [entryNames, hasWriteTo]
    · rcases w with - | res
      · rw [show Collector.add env st n (some ⟨none⟩) = st from rfl] at h ⊢
        rw [ih st h]
        simp [entryNames, hasWriteTo]
      · rcases hh : env.headerErr n with - | e
        · have hadd : Collector.add env st n (some ⟨some res⟩) =
              { st with headerCalls := st.headerCalls ++ [n]
                        writeCalls := st.writeCalls ++ [n]
                        addErr := res } := by
            simp [Collector.add, h0, hh]
          rw [hadd] at h h1 ⊢
          have hres : res = none := h1
          subst hres
          rw [ih _ h]
          simp [entryNames, hasWriteTo]
        · have hadd : Collector.add env st n (some ⟨some res⟩) =
              { st with headerCalls := st.headerCalls ++ [n], addErr := some e } := by
            simp [Collector.add, h0, hh]
          rw [hadd] at h1
          simp at h1

theorem entryNames_append (l1 l2 : List (String × Option DataSource)) :
    entryNames (l1 ++ l2) = entryNames l1 ++ entryNames l2 := by
  simp [entryNames, List.filter_append]

theorem entryNames_profiles (env : Env) (ps : List (String × Option Err)) :
    entryNames (ps.filterMap (fun p =>
      if p.1 = "heap" then none
      else some ("pprof/" ++ env.pathEscape p.1, some ⟨some p.2⟩))) =
    ps.filterMap (fun p =>
      if p.1 = "heap" then none else some ("pprof/" ++ env.pathEscape p.1)) := by
  induction ps with
  | nil => rfl
  | cons p ps ih =>
    by_cases hp : p.1 = "heap" <;>
      simp [List.filterMap_cons, hp, entryNames, hasWriteTo, List.filter_cons] <;>
      exact ih

theorem entryNames_custom (env : Env) (cs : List String) :
    entryNames (cs.map (fun n =>
      ("custom/" ++ env.pathEscape n, (List.lookup n env.custom).join))) =
    (cs.filter (fun n => hasCustomSource env n)).map
      (fun n => "custom/" ++ env.pathEscape n) := by
  induction cs with
  | nil => rfl
  | cons c cs ih =>
    by_cases hc : hasCustomSource env c = true <;>
      simp only [List.map_cons, entryNames, List.filter_cons] <;>
      rw [show hasWriteTo ((List.lookup c env.custom).join) = hasCustomSource env c from rfl]
    · rw [if_pos hc, if_pos hc]
      simpa [entryNames] using ih
    · rw [if_neg hc, if_neg hc]
      simpa [entryNames] using ih

theorem entryNames_static (env : Env) :
    entryNames (staticSources env) =
      ["meta", "expvar", "pprof/heap"]
      ++ env.profiles.filterMap (fun p =>
          if p.1 = "heap" then none else some ("pprof/" ++ env.pathEscape p.1))
      ++ ((sortStrings (env.custom.map Prod.fst)).filter
            (fun n => hasCustomSource env n)).map
          (fun n => "custom/" ++ env.pathEscape n) := by
  unfold staticSources
  rw [entryNames_append, entryNames_append, entryNames_profiles, entryNames_custom]
  rfl

theorem addTimeBasedProfile_skip (env : Env) (st : CState) (name : String)
    (e : Err) (c cl : Option Err) :
    Collector.addTimeBasedProfile env st name (some e) c cl = (st, none) := rfl

theorem addTimeBasedProfile_go (env : Env) (st : CState) (name : String)
    (c cl : Option Err) :
    Collector.addTimeBasedProfile env st name none c cl =
      ({ st with headerCalls := st.headerCalls ++ [name] },
        firstErr (env.headerErr name) (firstErr c cl)) := by
  unfold Collector.addTimeBasedProfile
  rcases env.headerErr name with - | e <;> rcases c with - | e' <;> simp [firstErr]

theorem pair_match_firstErr (o : Option Err) (s : CState) (d : Option Err) :
    (match o with | some e => (s, some e) | none => (s, d)) = (s, firstErr o d) := by
  rcases o with - | e <;> simp [firstErr]

theorem addExecutionTrace_eq (env : Env) (st : CState) (n pn : String) :
    Collector.addExecutionTrace env st n pn =
      ({ st with headerCalls := st.headerCalls
            ++ (if env.traceStartOk then [n] else [])
            ++ (if decide (0 < env.opt.cpuProfileDuration) && env.wrapCpuStartOk
                then [pn] else []) },
        firstErr
          (if env.traceStartOk
            then firstErr (env.headerErr n) (firstErr env.traceCopyErr env.traceCloseErr)
            else none)
          (if decide (0 < env.opt.cpuProfileDuration) && env.wrapCpuStartOk
            then firstErr (env.headerErr pn) env.ptWriteErr
            else none)) := by
  unfold Collector.addExecutionTrace
  by_cases ht : env.traceStartOk <;>
    by_cases hw : (decide (0 < env.opt.cpuProfileDuration) && env.wrapCpuStartOk) = true
  all_goals
    simp only [ht, hw, if_pos, if_neg, if_true, if_false, Bool.not_eq_true,
      addTimeBasedProfile_go, addTimeBasedProfile_skip]
  all_goals
    rcases hh : env.headerErr pn with - | e <;>
      simp [hh, pair_match_firstErr, firstErr]

theorem addCPUProfile_eq (env : Env) (st : CState) :
    Collector.addCPUProfile env st =
      (if env.cpuStartOk = true
        then ({ st with headerCalls := st.headerCalls ++ ["pprof/profile"] },
              firstErr (env.headerErr "pprof/profile")
                (firstErr env.cpuCopyErr env.cpuCloseErr))
        else (st, none)) := by
  unfold Collector.addCPUProfile
  by_cases hcs : env.cpuStartOk = true <;>
    simp [hcs, addTimeBasedProfile_go, addTimeBasedProfile_skip]

theorem run_static_fail (env : Env) (e : Err) (h : (runStatic env).addErr = some e) :
    Collector.Run env = (runStatic env, some e) := by
  simp only [Collector.Run, h]

theorem run_static_ok_addErr (env : Env) (h : (Collector.Run env).2 = none) :
    (runStatic env).addErr = none := by
  rcases h0 : (runStatic env).addErr with - | e
  · rfl
  · rw [run_static_fail env e h0] at h
    simp at h

theorem run_success_state (env : Env) (h : (Collector.Run env).2 = none) :
    Collector.Run env =
      ({ headerCalls := entryNames (staticSources env)
            ++ (if 0 < env.opt.cpuProfileDuration ∧ env.cpuStartOk = true
                then ["pprof/profile"] else [])
            ++ (if 0 < env.opt.executionTraceDuration ∧ env.traceStartOk = true
                then ["pprof/trace"] else [])
            ++ (if 0 < env.opt.executionTraceDuration ∧ 0 < env.opt.cpuProfileDuration
                  ∧ env.wrapCpuStartOk = true
                then ["pprof/profile-during-trace"] else []),
         writeCalls := entryNames (staticSources env),
         addErr := none,
         finishCount := 1 }, env.finishErr) := by
  have hs0 : (runStatic env).addErr = none := run_static_ok_addErr env h
  have hstat : runStatic env =
      { headerCalls := entryNames (staticSources env)
        writeCalls := entryNames (staticSources env)
        addErr := none
        finishCount := 0 } := by
    have := addList_success env (staticSources env) CState.init hs0
    simpa [runStatic, CState.init] using this
  simp only [Collector.Run, hs0] at h ⊢
  rw [addCPUProfile_eq] at h ⊢
  rw [addExecutionTrace_eq] at h ⊢
  by_cases hc : 0 < env.opt.cpuProfileDuration
  all_goals by_cases ht : 0 < env.opt.executionTraceDuration
  all_goals simp only [if_pos, if_neg, hc, ht] at h ⊢
  all_goals rw [hstat] at h ⊢
  all_goals by_cases hcs : env.cpuStartOk = true
  all_goals try simp [hcs] at h ⊢
  all_goals try split at h
  all_goals try split at h
  all_goals simp_all [List.append_assoc]

theorem add_finishCount (env : Env) (st : CState) (name : String)
    (source : Option DataSource) :
    (Collector.add env st name source).finishCount = st.finishCount := by
  rcases source with - | ⟨w⟩
  · rfl
  · rcases w with - | res
    · rfl
    · by_cases hs : st.addErr.isSome
      · rw [add_of_isSome env st name (some ⟨some res⟩) hs]
      · rcases hh : env.headerErr name with - | e <;> simp [Collector.add, hs, hh]

theorem addList_finishCount (env : Env) (l : List (String × Option DataSource)) :
    ∀ st : CState, (addList env st l).finishCount = st.finishCount := by
  induction l with
  | nil => intro st; rfl
  | cons p l ih =>
    intro st
    show (addList env (Collector.add env st p.1 p.2) l).finishCount = st.finishCount
    rw [ih, add_finishCount]

theorem runStatic_finishCount (env : Env) : (runStatic env).finishCount = 0 :=
  addList_finishCount env (staticSources env) CState.init

theorem addList_append (env : Env) (st : CState)
    (l1 l2 : List (String × Option DataSource)) :
    addList env st (l1 ++ l2) = addList env (addList env st l1) l2 := by
  simp [addList, List.foldl_append]

/-- Claim C10: `Collector.add` is a complete no-op — no entry header, no
bytes, no recorded error — when the `*DataSource` is nil or its `WriteTo`
field is nil; consequently a `CustomDataSources` entry of either kind is
silently omitted from the bundle and the run still succeeds (`envNilA` holds a
nil source under `"x"`, `envNilB` a source with nil `WriteTo` under `"y"`;
both runs succeed with only the three built-in static entries). -/
theorem add_nilSource_noop :
    (∀ (env : Env) (st : CState) (name : String),
      Collector.add env st name none = st) ∧
    (∀ (env : Env) (st : CState) (name : String),
      Collector.add env st name (some ⟨none⟩) = st) ∧
    (Collector.Run envNilA).2 = none ∧
    (Collector.Run envNilA).1.headerCalls = ["meta", "expvar", "pprof/heap"] ∧
    (Collector.Run envNilB).2 = none ∧
    (Collector.Run envNilB).1.headerCalls = ["meta", "expvar", "pprof/heap"] :=
  ⟨fun _ _ _ => rfl, fun _ _ _ => rfl, rfl, rfl, rfl, rfl⟩

/-- Claim C5 (counterexample): the claim states that when the start function
succeeds, the reported error is the pump's copy error, else the pipe-close
error, else nil.  But when creating the archive-entry header fails, that error
is returned even though the copy and close errors are both nil: with
`envHdrX` (header creation for `"x"` fails with `"hdr"`), start succeeding and
copy/close errors nil, the function reports `some "hdr"`, not `none`. -/
theorem addTimeBasedProfile_headerErr_cex :
    (Collector.addTimeBasedProfile envHdrX CState.init "x" none none none).2 =
      some "hdr" := rfl

/-- Claim C5 (amended): in `Collector.addTimeBasedProfile`, if the start
function fails the capture is skipped — the function returns nil and the state
is unchanged (no entry header is created); otherwise the entry header is
created and the reported error is the header-creation error if there is one,
else the pump's copy error if there is one, else the pipe-close error if there
is one, else nil. -/
theorem addTimeBasedProfile_error_semantics (env : Env) (st : CState)
    (name : String) (startErr copyErr closeErr : Option Err) :
    (∀ e : Err, startErr = some e →
      Collector.addTimeBasedProfile env st name startErr copyErr closeErr =
        (st, none)) ∧
    (startErr = none →
      Collector.addTimeBasedProfile env st name startErr copyErr closeErr =
        ({ st with headerCalls := st.headerCalls ++ [name] },
          firstErr (env.headerErr name) (firstErr copyErr closeErr))) := by
  constructor
  · intro e he
    subst he
    exact addTimeBasedProfile_skip env st name e copyErr closeErr
  · intro he
    subst he
    exact addTimeBasedProfile_go env st name copyErr closeErr

theorem addTimeBasedProfile_error_semantics_witness :
    Collector.addTimeBasedProfile envDefault CState.init "pprof/trace"
      (some "busy") none none = (CState.init, none) ∧
    Collector.addTimeBasedProfile envHdrX CState.init "x" none
      (some "c") (some "d") =
      ({ CState.init with headerCalls := ["x"] }, some "hdr") := by
  constructor
  · exact (addTimeBasedProfile_error_semantics envDefault CState.init
      "pprof/trace" (some "busy") none none).1 "busy" rfl
  · have := (addTimeBasedProfile_error_semantics envHdrX CState.init "x" none
      (some "c") (some "d")).2 rfl
    simpa [envHdrX, firstErr, CState.init] using this

/-- Claim C2 (counterexample): the claim states that when a static source
fails, finalization is still attempted before `Run` returns.  With
`envMetaFail` (the zip writer rejects the `meta` header) the run fails with
that error and `finish` is never called (`finishCount = 0`). -/
theorem run_staticFailure_no_finish_cex :
    (Collector.Run envMetaFail).2 = some "boom" ∧
    (Collector.Run envMetaFail).1.finishCount = 0 := ⟨rfl, rfl⟩

/-- Claim C2 (amended): when a static source fails during `Collector.Run`,
finalization is not attempted — `Run` returns the static phase's first error
with the state exactly as the static phase left it (in particular `finish` was
never called); the caller is told the bundle is incomplete via the returned
error; and on full success finalization runs exactly once, even if nothing was
ever written. -/
theorem run_finalization (env : Env) :
    (∀ e : Err, (runStatic env).addErr = some e →
      Collector.Run env = (runStatic env, some e) ∧
      (Collector.Run env).1.finishCount = 0) ∧
    ((Collector.Run env).2 = none → (Collector.Run env).1.finishCount = 1) := by
  constructor
  · intro e he
    refine ⟨run_static_fail env e he, ?_⟩
    rw [run_static_fail env e he]
    exact runStatic_finishCount env
  · intro h
    rw [run_success_state env h]

theorem run_finalization_witness :
    (Collector.Run envMetaFail = (runStatic envMetaFail, some "boom") ∧
      (Collector.Run envMetaFail).1.finishCount = 0) ∧
    (Collector.Run envDefault).1.finishCount = 1 :=
  ⟨(run_finalization envMetaFail).1 "boom" rfl,
   (run_finalization envDefault).2 rfl⟩

/-- Claim C3: if the static phase has failed by the time its `k`-th addition
has been processed, the final state of the whole run equals the state after
those `k` additions: no later static source gets an entry header or a
`WriteTo` call, the sticky first error — and only it — is what `Run` returns
after skipping through the remaining static additions, and no time-bounded
capture is attempted (the run result is exactly the static state paired with
the error, with `finish` never called). -/
theorem run_staticFailure_shortCircuit (env : Env) (k : Nat) (e : Err)
    (h : (addList env CState.init ((staticSources env).take k)).addErr = some e) :
    Collector.Run env =
      (addList env CState.init ((staticSources env).take k), some e) := by
  have hfull : runStatic env = addList env CState.init ((staticSources env).take k) := by
    rw [runStatic]
    conv_lhs => rw [← List.take_append_drop k (staticSources env)]
    rw [addList_append]
    exact addList_of_isSome env _ _ (by simp [h])
  have he : (runStatic env).addErr = some e := by rw [hfull]; exact h
  rw [run_static_fail env e he, hfull]

theorem run_staticFailure_shortCircuit_witness :
    (addList envMetaFail CState.init ((staticSources envMetaFail).take 1)).addErr =
      some "boom" ∧
    Collector.Run envMetaFail =
      (addList envMetaFail CState.init ((staticSources envMetaFail).take 1),
        some "boom") :=
  ⟨rfl, run_staticFailure_shortCircuit envMetaFail 1 "boom" rfl⟩

/-- Claim C1 (counterexample): the claim requires `pprof/profile-during-trace`
to be present if and only if both the CPU capture and the trace capture ran.
With `envTraceBusy` both captures are requested, the standalone CPU capture
and the wrapping CPU profile start, but `trace.Start` fails, so the trace
capture never runs (no `pprof/trace` entry) — yet the run succeeds and the
archive still receives a `pprof/profile-during-trace` entry, because
collector.go:188-198 writes the buffered profile whenever `cpuProfile != nil`,
regardless of whether the trace started. -/
theorem run_duringTrace_without_trace_cex :
    (Collector.Run envTraceBusy).2 = none ∧
    envTraceBusy.traceStartOk = false ∧
    (Collector.Run envTraceBusy).1.headerCalls =
      ["meta", "expvar", "pprof/heap", "pprof/profile",
        "pprof/profile-during-trace"] := ⟨rfl, rfl, rfl⟩

/-- Claim C1 (amended): for every successful run the entries are emitted in
exactly this order — `meta`, then `expvar`, then `pprof/heap`, then
`pprof/<name>` for each other enumerated profile (path-escaped, in
registration order), then `custom/<name>` for each custom data source whose
`WriteTo` is set (names path-escaped, in lexicographic order of the unescaped
names), then `pprof/profile` iff a CPU capture was requested and started, then
`pprof/trace` iff a trace capture was requested and started, then
`pprof/profile-during-trace` iff both captures were requested and the
trace-spanning CPU profile started (even if the trace itself could not). -/
theorem run_success_entry_order (env : Env) (h : (Collector.Run env).2 = none) :
    (sortStrings (env.custom.map Prod.fst)).Sorted (· ≤ ·) ∧
    (sortStrings (env.custom.map Prod.fst)).Perm (env.custom.map Prod.fst) ∧
    (Collector.Run env).1.headerCalls =
      ["meta", "expvar", "pprof/heap"]
      ++ env.profiles.filterMap (fun p =>
          if p.1 = "heap" then none else some ("pprof/" ++ env.pathEscape p.1))
      ++ ((sortStrings (env.custom.map Prod.fst)).filter
            (fun n => hasCustomSource env n)).map
          (fun n => "custom/" ++ env.pathEscape n)
      ++ (if 0 < env.opt.cpuProfileDuration ∧ env.cpuStartOk = true
          then ["pprof/profile"] else [])
      ++ (if 0 < env.opt.executionTraceDuration ∧ env.traceStartOk = true
          then ["pprof/trace"] else [])
      ++ (if 0 < env.opt.executionTraceDuration ∧ 0 < env.opt.cpuProfileDuration
            ∧ env.wrapCpuStartOk = true
          then ["pprof/profile-during-trace"] else []) := by
  refine ⟨List.sorted_insertionSort _ _, List.perm_insertionSort _ _, ?_⟩
  rw [run_success_state env h]
  simp [entryNames_static, List.append_assoc]

theorem run_success_entry_order_witness :
    (Collector.Run envBundleW).2 = none ∧
    ((sortStrings (envBundleW.custom.map Prod.fst)).Sorted (· ≤ ·) ∧
      (sortStrings (envBundleW.custom.map Prod.fst)).Perm
        (envBundleW.custom.map Prod.fst) ∧
      (Collector.Run envBundleW).1.headerCalls =
        ["meta", "expvar", "pprof/heap"]
        ++ envBundleW.profiles.filterMap (fun p =>
            if p.1 = "heap" then none
            else some ("pprof/" ++ envBundleW.pathEscape p.1))
        ++ ((sortStrings (envBundleW.custom.map Prod.fst)).filter
              (fun n => hasCustomSource envBundleW n)).map
            (fun n => "custom/" ++ envBundleW.pathEscape n)
        ++ (if 0 < envBundleW.opt.cpuProfileDuration ∧ envBundleW.cpuStartOk = true
            then ["pprof/profile"] else [])
        ++ (if 0 < envBundleW.opt.executionTraceDuration
              ∧ envBundleW.traceStartOk = true
            then ["pprof/trace"] else [])
        ++ (if 0 < envBundleW.opt.executionTraceDuration
              ∧ 0 < envBundleW.opt.cpuProfileDuration
              ∧ envBundleW.wrapCpuStartOk = true
            then ["pprof/profile-during-trace"] else [])) :=
  ⟨rfl, run_success_entry_order envBundleW rfl⟩

/-- Claim C6: in the combined CPU+trace capture, when a CPU-profile duration
is configured: the trace-spanning profile's bytes are written as one
additional entry (under `profileName`) if and only if the wrapping CPU
capture actually started; when it could not be started it is skipped silently
— the result is exactly the trace-side result, with no profile error; and the
returned error is the trace-capture error when there is one, else the
profile-write side's error. -/
theorem addExecutionTrace_combined (env : Env) (st : CState) (n pn : String)
    (hcpu : 0 < env.opt.cpuProfileDuration) :
    (Collector.addExecutionTrace env st n pn).1.headerCalls =
      st.headerCalls ++ (if env.traceStartOk = true then [n] else [])
        ++ (if env.wrapCpuStartOk = true then [pn] else []) ∧
    (env.wrapCpuStartOk = false →
      (Collector.addExecutionTrace env st n pn).2 =
        (if env.traceStartOk = true
          then firstErr (env.headerErr n)
            (firstErr env.traceCopyErr env.traceCloseErr)
          else none)) ∧
    (Collector.addExecutionTrace env st n pn).2 =
      firstErr
        (if env.traceStartOk = true
          then firstErr (env.headerErr n)
            (firstErr env.traceCopyErr env.traceCloseErr)
          else none)
        (if env.wrapCpuStartOk = true
          then firstErr (env.headerErr pn) env.ptWriteErr
          else none) := by
  rw [addExecutionTrace_eq]
  refine ⟨by simp [hcpu], ?_, by simp [hcpu]⟩
  intro hw
  rcases ho : (if env.traceStartOk = true
      then firstErr (env.headerErr n) (firstErr env.traceCopyErr env.traceCloseErr)
      else none) with - | e <;>
    simp [hcpu, hw, ho, firstErr]

theorem addExecutionTrace_combined_witness :
    0 < envBoth.opt.cpuProfileDuration ∧
    ((Collector.addExecutionTrace envBoth CState.init "pprof/trace"
        "pprof/profile-during-trace").1.headerCalls =
      CState.init.headerCalls
        ++ (if envBoth.traceStartOk = true then ["pprof/trace"] else [])
        ++ (if envBoth.wrapCpuStartOk = true
            then ["pprof/profile-during-trace"] else []) ∧
      (envBoth.wrapCpuStartOk = false →
        (Collector.addExecutionTrace envBoth CState.init "pprof/trace"
          "pprof/profile-during-trace").2 =
          (if envBoth.traceStartOk = true
            then firstErr (envBoth.headerErr "pprof/trace")
              (firstErr envBoth.traceCopyErr envBoth.traceCloseErr)
            else none)) ∧
      (Collector.addExecutionTrace envBoth CState.init "pprof/trace"
        "pprof/profile-during-trace").2 =
        firstErr
          (if envBoth.traceStartOk = true
            then firstErr (envBoth.headerErr "pprof/trace")
              (firstErr envBoth.traceCopyErr envBoth.traceCloseErr)
            else none)
          (if envBoth.wrapCpuStartOk = true
            then firstErr (envBoth.headerErr "pprof/profile-during-trace")
              envBoth.ptWriteErr
            else none)) :=
  ⟨by decide,
   addExecutionTrace_combined envBoth CState.init "pprof/trace"
     "pprof/profile-during-trace" (by decide)⟩

theorem limitTriggerWrite_step (target : Int) (out0 : List Nat) (l0 : Nat)
    (p : List Nat) :
    limitTriggerWrite
      { out := out0, remaining := target - l0,
        fnArmed := decide ((l0 : Int) < target),
        fires := if target ≤ (l0 : Int) then 1 else 0 } p =
      { out := out0 ++ p, remaining := target - ((l0 + p.length : Nat) : Int),
        fnArmed := decide (((l0 + p.length : Nat) : Int) < target),
        fires := if target ≤ ((l0 + p.length : Nat) : Int) then 1 else 0 } := by
  unfold limitTriggerWrite
  by_cases hA : target - (l0 : Int) - (p.length : Int) ≤ 0 <;>
    by_cases hB : (l0 : Int) < target <;>
    simp [hA, hB, LimitTriggerState.mk.injEq]
  all_goals refine ⟨by omega, by omega, ?_⟩
  all_goals split_ifs <;> omega

theorem limitTrigger_foldl (target : Int) :
    ∀ (ws : List (List Nat)) (out0 : List Nat) (l0 : Nat),
      ws.foldl limitTriggerWrite
        { out := out0, remaining := target - l0,
          fnArmed := decide ((l0 : Int) < target),
          fires := if target ≤ (l0 : Int) then 1 else 0 } =
      { out := out0 ++ ws.flatten,
        remaining := target - ((l0 + ws.flatten.length : Nat) : Int),
        fnArmed := decide (((l0 + ws.flatten.length : Nat) : Int) < target),
        fires := if target ≤ ((l0 + ws.flatten.length : Nat) : Int) then 1 else 0 } := by
  intro ws
  induction ws with
  | nil => intro out0 l0; simp
  | cons p ws ih =>
    intro out0 l0
    rw [List.foldl_cons, limitTriggerWrite_step, ih (out0 ++ p) (l0 + p.length)]
    simp [List.append_assoc, Nat.add_assoc]

/-- Claim C4: for every sequence of writes through `limitTriggerWriter` with a
positive initial budget, every byte is forwarded unmodified and in order to
the underlying writer, and the cancellation callback has fired exactly once
when the cumulative forwarded byte count has reached the watermark and not at
all before.  Because the statement holds for *every* write sequence, it holds
for every prefix of a longer sequence, so the fire count is 0 for each prefix
strictly below the watermark and 1 from the first write that reaches or
crosses it onward — i.e. the callback fires exactly once, at that write, and
later writes keep being forwarded (`out` stays the full concatenation). -/
theorem limitTriggerWriter_soft_trigger (target : Int) (hT : 0 < target)
    (ws : List (List Nat)) :
    (ws.foldl limitTriggerWrite (limitTriggerInit target)).out = ws.flatten ∧
    (ws.foldl limitTriggerWrite (limitTriggerInit target)).fires =
      (if target ≤ (ws.flatten.length : Int) then 1 else 0) := by
  have hinit : limitTriggerInit target =
      { out := ([] : List Nat), remaining := target - (0 : Nat),
        fnArmed := decide (((0 : Nat) : Int) < target),
        fires := if target ≤ ((0 : Nat) : Int) then 1 else 0 } := by
    simp [limitTriggerInit, hT, not_le.mpr hT]
  rw [hinit, limitTrigger_foldl target ws [] 0]
  simp

theorem limitTriggerWriter_soft_trigger_witness :
    (0 : Int) < 3 ∧
    (([[1, 2], [3, 4], [5]] : List (List Nat)).foldl limitTriggerWrite
      (limitTriggerInit 3)).out = [1, 2, 3, 4, 5] ∧
    (([[1, 2], [3, 4], [5]] : List (List Nat)).foldl limitTriggerWrite
      (limitTriggerInit 3)).fires = 1 := by
  refine ⟨by decide, ?_, ?_⟩
  · have := (limitTriggerWriter_soft_trigger 3 (by decide) [[1, 2], [3, 4], [5]]).1
    simpa using this
  · have := (limitTriggerWriter_soft_trigger 3 (by decide) [[1, 2], [3, 4], [5]]).2
    simpa using this

end Autoprof


namespace Periodic

theorem newLinkCap_pos (size : Int) : 0 < newLinkCap size := by
  unfold newLinkCap
  split_ifs with h
  · omega
  · omega

theorem getLast?_some_split :
    ∀ (links : List BufferLink) (t : BufferLink),
      links.getLast? = some t → ∃ front, links = front ++ [t] := by
  intro links
  induction links with
  | nil => intro t h; simp at h
  | cons x xs ih =>
    intro t h
    match xs with
    | [] =>
      simp only [List.getLast?_singleton, Option.some.injEq] at h
      exact ⟨[], by rw [h]; rfl⟩
    | y :: ys =>
      rw [List.getLast?_cons_cons] at h
      obtain ⟨front, hf⟩ := ih t h
      exact ⟨x :: front, by rw [hf]; rfl⟩

theorem setLast_append (front : List BufferLink) (t a : BufferLink) :
    setLast (front ++ [t]) a = front ++ [a] := by
  induction front with
  | nil => rfl
  | cons x xs ih =>
    cases xs <;> simp_all [setLast]

end Periodic

namespace Periodic

theorem writeLoop_flatten (c : Nat) (hc : 0 < c) :
    ∀ (n : Nat) (p : List Nat), p.length ≤ n → ∀ links : List BufferLink, links ≠ [] →
      ((writeLoop c links p).map BufferLink.body).flatten =
        ((links.map BufferLink.body).flatten) ++ p := by
  intro n
  induction n with
  | zero =>
    intro p hp links hne
    have hp0 : p = [] := List.length_eq_zero.mp (Nat.le_zero.mp hp)
    subst hp0
    rw [writeLoop]
    simp
  | succ n ih =>
    intro p hp links hne
    match p with
    | [] =>
      rw [writeLoop]
      simp
    | p₁ :: ps =>
      obtain ⟨t, hlast⟩ : ∃ t, links.getLast? = some t := by
        rcases hgl : links.getLast? with - | t
        · exact absurd (List.getLast?_eq_none_iff.mp hgl) hne
        · exact ⟨t, rfl⟩
      obtain ⟨front, hfront⟩ := getLast?_some_split links t hlast
      rw [writeLoop]
      simp only [hlast]
      by_cases hn0 : (t.cap - t.body.length) ⊓ (p₁ :: ps).length = 0
      · rw [if_pos hn0]
        have hmne : ¬ c ⊓ (p₁ :: ps).length = 0 := by
          simp only [List.length_cons]
          omega
        rw [dif_neg hmne]
        have hlen : (List.drop (c ⊓ (p₁ :: ps).length) (p₁ :: ps)).length ≤ n := by
          simp only [List.length_drop, List.length_cons]
          simp only [List.length_cons] at hp
          omega
        have hrec := ih (List.drop (c ⊓ (p₁ :: ps).length) (p₁ :: ps)) hlen
          (links ++ [BufferLink.mk (List.take (c ⊓ (p₁ :: ps).length) (p₁ :: ps)) c])
          (by simp)
        rw [hrec]
        simp [List.append_assoc, List.take_append_drop]
      · rw [if_neg hn0]
        rw [hfront, setLast_append]
        have hlen : (List.drop ((t.cap - t.body.length) ⊓ (p₁ :: ps).length)
            (p₁ :: ps)).length ≤ n := by
          simp only [List.length_drop, List.length_cons]
          simp only [List.length_cons] at hp hn0
          omega
        have hrec := ih (List.drop ((t.cap - t.body.length) ⊓ (p₁ :: ps).length)
            (p₁ :: ps)) hlen
          (front ++ [BufferLink.mk (t.body ++ List.take ((t.cap - t.body.length) ⊓
            (p₁ :: ps).length) (p₁ :: ps)) t.cap]) (by simp)
        rw [hrec]
        simp [List.append_assoc, List.take_append_drop]

end Periodic

namespace Periodic

theorem read_none_iff (b : LinkedListBuffer) (k : Nat) :
    b.read k = none ↔ b.links = [] := by
  unfold LinkedListBuffer.read
  cases hl : b.links <;> simp [hl]

theorem read_measureB_lt (k : Nat) (b b' : LinkedListBuffer) (chunk : List Nat)
    (h : b.read (k + 1) = some (chunk, b')) : b'.measureB < b.measureB := by
  unfold LinkedListBuffer.read at h
  rcases hl : b.links with - | ⟨link, rest⟩
  · rw [hl] at h
    exact absurd h (by simp)
  · rw [hl] at h
    simp only [Option.some.injEq, Prod.mk.injEq] at h
    obtain ⟨-, hb'⟩ := h
    by_cases he : link.body.drop (min (k + 1) link.body.length) = []
    · rw [if_pos he] at hb'
      subst hb'
      simp only [LinkedListBuffer.measureB, hl, List.map_cons, List.sum_cons,
        List.length_cons]
      omega
    · rw [if_neg he] at hb'
      subst hb'
      simp only [LinkedListBuffer.measureB, hl, List.map_cons, List.sum_cons,
        List.length_cons, List.length_drop]
      have h₁ := List.length_pos.mpr he
      rw [List.length_drop] at h₁
      omega

theorem read_some_content (k : Nat) (b b' : LinkedListBuffer) (chunk : List Nat)
    (h : b.read (k + 1) = some (chunk, b')) :
    chunk ++ b'.content = b.content := by
  unfold LinkedListBuffer.read at h
  rcases hl : b.links with - | ⟨link, rest⟩
  · rw [hl] at h
    exact absurd h (by simp)
  · rw [hl] at h
    simp only [Option.some.injEq, Prod.mk.injEq] at h
    obtain ⟨hchunk, hb'⟩ := h
    by_cases he : link.body.drop (min (k + 1) link.body.length) = []
    · rw [if_pos he] at hb'
      rw [← hchunk, ← hb']
      simp only [LinkedListBuffer.content, hl, List.map_cons, List.flatten_cons]
      conv_rhs => rw [← List.take_append_drop (min (k + 1) link.body.length) link.body]
      rw [he]
      simp
    · rw [if_neg he] at hb'
      rw [← hchunk, ← hb']
      simp only [LinkedListBuffer.content, hl, List.map_cons, List.flatten_cons]
      rw [← List.append_assoc, List.take_append_drop]

theorem readAll_content (k : Nat) :
    ∀ (m : Nat) (b : LinkedListBuffer), b.measureB ≤ m → b.readAll k = b.content := by
  intro m
  induction m with
  | zero =>
    intro b hb
    have hl : b.links = [] := by
      have : b.links.length = 0 := by
        simp only [LinkedListBuffer.measureB] at hb
        omega
      exact List.length_eq_zero.mp this
    rw [LinkedListBuffer.readAll]
    split
    · simp [LinkedListBuffer.content, hl]
    · rename_i chunk b' heq
      rw [(read_none_iff b (k + 1)).mpr hl] at heq
      exact absurd heq (by simp)
  | succ m ih =>
    intro b hb
    rw [LinkedListBuffer.readAll]
    split
    · rename_i heq
      rw [read_none_iff] at heq
      simp [LinkedListBuffer.content, heq]
    · rename_i chunk b' heq
      have hlt := read_measureB_lt k b b' chunk heq
      rw [ih b' (by omega)]
      exact read_some_content k b b' chunk heq

theorem write_flatten (b : LinkedListBuffer) (p : List Nat) :
    (b.write p).content = b.content ++ p := by
  unfold LinkedListBuffer.write LinkedListBuffer.content
  by_cases hl : b.links = []
  · by_cases hp : p = []
    · subst hp
      simp only [hl]
      rw [writeLoop]
      simp
    · have hw := writeLoop_flatten (newLinkCap b.size) (newLinkCap_pos b.size)
        p.length p le_rfl [BufferLink.mk [] (newLinkCap b.size)] (by simp)
      simp only [if_pos (And.intro hl hp)]
      rw [hl]
      simpa using hw
  · have hcond : ¬ (b.links = [] ∧ p ≠ []) := fun hx => hl hx.1
    rw [if_neg hcond]
    have hw := writeLoop_flatten (newLinkCap b.size) (newLinkCap_pos b.size)
      p.length p le_rfl b.links hl
    simpa using hw

theorem foldl_write_content :
    ∀ (ws : List (List Nat)) (b : LinkedListBuffer),
      (ws.foldl LinkedListBuffer.write b).content = b.content ++ ws.flatten := by
  intro ws
  induction ws with
  | nil => intro b; simp
  | cons p ws ih =>
    intro b
    rw [List.foldl_cons, ih, write_flatten]
    simp [List.append_assoc]

/-- Claim C7: the low-latency FIFO buffer round-trips byte-exactly: for every
chunk-size configuration (any `Size : Int`, including zero and negative values
which fall back to the 16 KiB default), every sequence of writes into a fresh
buffer followed by reads until EOF (with any positive read-buffer size
`k + 1`) returns exactly the concatenation of the written bytes, in order. -/
theorem linkedListBuffer_roundTrip (size : Int) (ws : List (List Nat)) (k : Nat) :
    (ws.foldl LinkedListBuffer.write { size := size, links := [] }).readAll k =
      ws.flatten := by
  rw [readAll_content k (ws.foldl LinkedListBuffer.write
    { size := size, links := [] }).measureB _ le_rfl]
  rw [foldl_write_content]
  simp [LinkedListBuffer.content]

end Periodic

namespace Periodic

/-- Claim C9: for every RNG state of the periodic scheduler — i.e. for every
value the generator can return, constrained only by the `math/rand` contract
(`Intn 100` yields a draw in `[0, 100)`, `Int63n maxTrim` yields a trim in
`[0, maxTrim)`) — the options produced for iteration `i = 0` force both the
CPU-profile duration and the execution-trace duration to zero regardless of
the draw and of the next-trace counter; and the sleep duration computed by
`runner.delay` lies in `[0, D]` for `i = 0` and in `[0.8·D, D]` for every
`i > 0`, where `D` is `defaultProfileInterval` (`0.8·D = 4·D/5` exactly,
since `D` is divisible by 5). -/
theorem runner_first_iteration_and_delay_bounds :
    (∀ nextExecTrace draw : Nat,
      (runner.options 0 nextExecTrace draw).1.cpuProfileDuration = 0 ∧
      (runner.options 0 nextExecTrace draw).1.executionTraceDuration = 0) ∧
    (∀ trim : Int, 0 ≤ trim → trim < runner.delayMaxTrim 0 →
      0 ≤ runner.delaySleep trim ∧
      runner.delaySleep trim ≤ defaultProfileInterval) ∧
    (∀ (i : Nat) (trim : Int), 0 < i → 0 ≤ trim → trim < runner.delayMaxTrim i →
      4 * defaultProfileInterval / 5 ≤ runner.delaySleep trim ∧
      runner.delaySleep trim ≤ defaultProfileInterval) := by
  refine ⟨?_, ?_, ?_⟩
  · intro nextExecTrace draw
    unfold runner.options
    by_cases hn : nextExecTrace = 0 <;> simp [hn]
  · intro trim h0 hlt
    unfold runner.delayMaxTrim at hlt
    unfold runner.delaySleep defaultProfileInterval at *
    simp at hlt
    omega
  · intro i trim hi h0 hlt
    unfold runner.delayMaxTrim at hlt
    rw [if_pos hi] at hlt
    unfold runner.delaySleep defaultProfileInterval at *
    omega

theorem runner_first_iteration_and_delay_bounds_witness :
    ((runner.options 0 7 3).1.cpuProfileDuration = 0 ∧
      (runner.options 0 7 3).1.executionTraceDuration = 0) ∧
    ((0 : Int) ≤ 5 ∧ (5 : Int) < runner.delayMaxTrim 0 ∧
      0 ≤ runner.delaySleep 5 ∧ runner.delaySleep 5 ≤ defaultProfileInterval) ∧
    (0 < 2 ∧ (0 : Int) ≤ 7 ∧ (7 : Int) < runner.delayMaxTrim 2 ∧
      4 * defaultProfileInterval / 5 ≤ runner.delaySleep 7 ∧
      runner.delaySleep 7 ≤ defaultProfileInterval) := by
  refine ⟨runner_first_iteration_and_delay_bounds.1 7 3, ⟨by decide, by decide, ?_⟩,
    ⟨by decide, by decide, by decide, ?_⟩⟩
  · exact runner_first_iteration_and_delay_bounds.2.1 5 (by decide) (by decide)
  · exact runner_first_iteration_and_delay_bounds.2.2 2 7 (by decide) (by decide) (by decide)

end Periodic
